import Mathlib

/-!
Shallow embedding of the enrichment pipeline of
`src/webapp/src/app/api/search/route.ts`.

JavaScript strings are modelled as Lean `String` (operated on through their
`.data` character lists), JS numbers that the code treats as integral
amounts/timestamps as `Int`, and `undefined`/absent fields as `Option`.
External collaborators (the `Intl.NumberFormat` currency formatter,
`Date` parsing, `toLocaleDateString`, `crypto.randomUUID`, and the two
HTTP transports) are passed in as explicit function parameters, so every
theorem quantifies over their behaviour.
-/

/-- Embedding of the JS nullish-coalescing operator `a ?? b`. -/
def optOr {α : Type} (a b : Option α) : Option α :=
  match a with
  | some x => some x
  | none => b

/-- ASCII lower-casing of one character, embedding what
`String.prototype.toLowerCase()` does on the ASCII range. -/
def lowerChar (c : Char) : Char :=
  if 65 ≤ c.toNat ∧ c.toNat ≤ 90 then Char.ofNat (c.toNat + 32) else c

/-- Embedding of `String.prototype.toLowerCase()` (ASCII range). -/
def jsLower (s : String) : String :=
  String.mk (s.data.map lowerChar)

/-- The whitespace class `\s` of JS regexes / `String.prototype.trim()`
(ASCII part: space, tab, line feed, vertical tab, form feed, carriage
return). -/
def isJsSpace (c : Char) : Bool :=
  c = ' ' ∨ c = '\t' ∨ c = '\n' ∨ c = '\x0b' ∨ c = '\x0c' ∨ c = '\r'

/-- Strip leading and trailing whitespace from a character list. -/
def trimWs (l : List Char) : List Char :=
  ((l.dropWhile isJsSpace).reverse.dropWhile isJsSpace).reverse

/-- Embedding of `String.prototype.trim()`. -/
def jsTrim (s : String) : String :=
  String.mk (trimWs s.data)

/-- Embedding of `ensureString` (route.ts:95-97): a defined string field is
trimmed and kept when the trimmed result is non-empty (JS truthiness of a
string), otherwise the result is `undefined`. -/
def ensureString (value : Option String) : Option String :=
  match value with
  | some s => if jsTrim s = "" then none else some (jsTrim s)
  | none => none

/-- Embedding of `String.prototype.startsWith(p)`. -/
def jsStartsWith (s p : String) : Bool :=
  p.data.isPrefixOf s.data

/-- Embedding of `String.prototype.includes(sub)`. -/
def jsHasSubstr (s sub : String) : Bool :=
  (List.range (s.data.length + 1)).any (fun i => sub.data.isPrefixOf (s.data.drop i))

/-- Replace every maximal whitespace run by a single space: embedding of
`str.replace(/\s+/g, " ")` (route.ts:251). -/
def collapseWs : List Char → List Char
  | [] => []
  | [c] => if isJsSpace c then [' '] else [c]
  | c :: d :: cs =>
    if isJsSpace c then
      if isJsSpace d then collapseWs (d :: cs)
      else ' ' :: collapseWs (d :: cs)
    else c :: collapseWs (d :: cs)

/-- `match.replace(/\s+/g, " ").trim()` (route.ts:251). -/
def normalizePhone (s : String) : String :=
  String.mk (trimWs (collapseWs s.data))

/-! ### The two regexes (route.ts:90-93)

`EMAIL_REGEX = /[a-z0-9._%+-]+@[a-z0-9.-]+\.[a-z]{2,}/gi`
`PHONE_REGEX = /\+?[0-9][0-9\s().-]{6,}[0-9]/g`

They are embedded as executable leftmost-match scanners with the greedy
backtracking behaviour of the JS engine specialised to these patterns. -/

def isDigitChar (c : Char) : Bool :=
  '0' ≤ c ∧ c ≤ '9'

def isAsciiLetter (c : Char) : Bool :=
  ('a' ≤ c ∧ c ≤ 'z') ∨ ('A' ≤ c ∧ c ≤ 'Z')

/-- The class `[a-z0-9._%+-]` under the `i` flag. -/
def isEmailLocalChar (c : Char) : Bool :=
  isAsciiLetter c ∨ isDigitChar c ∨ c = '.' ∨ c = '_' ∨ c = '%' ∨ c = '+' ∨ c = '-'

/-- The class `[a-z0-9.-]` under the `i` flag. -/
def isEmailDomainChar (c : Char) : Bool :=
  isAsciiLetter c ∨ isDigitChar c ∨ c = '.' ∨ c = '-'

/-- The class `[0-9\s().-]`. -/
def isPhoneBodyChar (c : Char) : Bool :=
  isDigitChar c ∨ isJsSpace c ∨ c = '(' ∨ c = ')' ∨ c = '.' ∨ c = '-'

/-- Try `EMAIL_REGEX` anchored at the head of `s`; on success return the
matched characters and the remainder after the match.  The greedy engine
takes the maximal run of local-part characters (which must be followed
immediately by `@`), the maximal run of domain characters, and then
backtracks the domain run to the rightmost split point whose next
character is `.` followed by at least two ASCII letters. -/
def emailAt (s : List Char) : Option (List Char × List Char) :=
  let loc := s.takeWhile isEmailLocalChar
  let r1 := s.dropWhile isEmailLocalChar
  if loc = [] then none
  else
    match r1 with
    | '@' :: r2 =>
      let dom := r2.takeWhile isEmailDomainChar
      let r3 := r2.dropWhile isEmailDomainChar
      let splits := (List.range dom.length).filter
        (fun len => decide (1 ≤ len) && (dom[len]? == some '.')
          && decide (2 ≤ ((dom.drop (len + 1)).takeWhile isAsciiLetter).length))
      match splits.getLast? with
      | some len =>
        let tld := (dom.drop (len + 1)).takeWhile isAsciiLetter
        some (loc ++ '@' :: (dom.take len ++ '.' :: tld),
              dom.drop (len + 1 + tld.length) ++ r3)
      | none => none
    | _ => none

/-- Try `PHONE_REGEX` anchored at the head of `s` (without the optional
leading `+`): a digit, then a greedy body run of 6+ characters from
`[0-9\s().-]`, backtracked to the rightmost position ≥ 6 holding the
final digit. -/
def phoneCore (s : List Char) : Option (List Char × List Char) :=
  match s with
  | [] => none
  | d :: rest =>
    if isDigitChar d then
      let run := rest.takeWhile isPhoneBodyChar
      let after := rest.dropWhile isPhoneBodyChar
      let ends := (List.range run.length).filter
        (fun len => decide (6 ≤ len) && (run[len]?.any isDigitChar))
      match ends.getLast? with
      | some len => some (d :: run.take (len + 1), run.drop (len + 1) ++ after)
      | none => none
    else none

/-- Try `PHONE_REGEX` anchored at the head of `s`, including the optional
leading `+` (when the head is `+` the rest must match; backtracking to
the `+`-less alternative always fails since `+` is not a digit). -/
def phoneAt (s : List Char) : Option (List Char × List Char) :=
  match s with
  | '+' :: rest => (phoneCore rest).map (fun p => ('+' :: p.1, p.2))
  | _ => phoneCore s

/-- Global scan of a `g`-flagged regex: repeatedly find the leftmost
match, then continue right after it (`String.prototype.match` with the
global flag).  `fuel` bounds the recursion; every match consumes at least
one character, so `fuel = s.length` gives the exact JS semantics. -/
def scanMatches (matchAt : List Char → Option (List Char × List Char)) :
    Nat → List Char → List (List Char)
  | 0, _ => []
  | _ + 1, [] => []
  | fuel + 1, c :: cs =>
    match matchAt (c :: cs) with
    | some (m, rest) => m :: scanMatches matchAt fuel rest
    | none => scanMatches matchAt fuel cs

/-- `description.match(EMAIL_REGEX)`, with `null` flattened to `[]`. -/
def emailMatches (s : String) : List String :=
  (scanMatches emailAt s.data.length s.data).map String.mk

/-- `description.match(PHONE_REGEX)`, with `null` flattened to `[]`. -/
def phoneMatches (s : String) : List String :=
  (scanMatches phoneAt s.data.length s.data).map String.mk

/-! ### Data model (route.ts:16-88) -/

/-- `JobContact` (route.ts:16-19). -/
structure JobContact where
  label : String
  value : String
deriving DecidableEq, Repr

/-- `CompanyInsight` (route.ts:21-29). -/
structure CompanyInsight where
  name : String
  domain : Option String := none
  description : Option String := none
  logo : Option String := none
  location : Option String := none
  linkedin : Option String := none
  twitter : Option String := none
deriving DecidableEq, Repr

/-- `JobResult` (route.ts:31-47). -/
structure JobResult where
  id : String
  title : String
  company : String
  city : Option String := none
  state : Option String := none
  country : Option String := none
  remote : Bool
  employmentType : Option String := none
  salary : Option String := none
  applyLink : Option String := none
  description : Option String := none
  highlights : List String := []
  postedAt : Option String := none
  contacts : List JobContact := []
  companyInsight : Option CompanyInsight := none
deriving DecidableEq, Repr

/-- `JobHighlights` (route.ts:49-53); an absent bucket (or a non-array
value, rejected by the `Array.isArray` guards at route.ts:429-439) is
`none`. -/
structure JobHighlights where
  Qualifications : Option (List String) := none
  Responsibilities : Option (List String) := none
  Benefits : Option (List String) := none
deriving DecidableEq, Repr

/-- `JobSalary` (route.ts:55-63); the numeric amounts are modelled as
integers. -/
structure JobSalary where
  currency : Option String := none
  salary_min : Option Int := none
  salary_max : Option Int := none
  salary_period : Option String := none
  min_salary : Option Int := none
  max_salary : Option Int := none
  period : Option String := none
deriving DecidableEq, Repr

/-- `JSearchJob` — the RawListing (route.ts:65-83).  Every field is
optional. -/
structure JSearchJob where
  job_id : Option String := none
  job_title : Option String := none
  employer_name : Option String := none
  employer_website : Option String := none
  employer_email : Option String := none
  job_city : Option String := none
  job_state : Option String := none
  job_country : Option String := none
  job_is_remote : Option Bool := none
  job_employment_type : Option String := none
  job_apply_link : Option String := none
  job_description : Option String := none
  job_highlights : Option JobHighlights := none
  job_salary : Option JobSalary := none
  job_posted_at_timestamp : Option Int := none
  job_posted_at_datetime_utc : Option String := none
  job_posted_at : Option String := none
deriving DecidableEq, Repr

/-! ### The contact map (route.ts:210, `new Map<string, JobContact>()`)

A JS `Map` is insertion-ordered; it is embedded as an association list.
`set` on a present key updates the value in place (keeping the original
position), `set` on an absent key appends at the end. -/

/-- `contactMap.has(k)`. -/
def mapHas (m : List (String × JobContact)) (k : String) : Bool :=
  m.any (fun e => e.1 == k)

/-- `contactMap.set(k, v)`. -/
def mapSet : List (String × JobContact) → String → JobContact →
    List (String × JobContact)
  | [], k, v => [(k, v)]
  | e :: rest, k, v => if e.1 == k then (k, v) :: rest else e :: mapSet rest k v

/-- `Array.from(contactMap.values())`. -/
def mapValues (m : List (String × JobContact)) : List JobContact :=
  m.map Prod.snd

/-! ### `extractContacts` (route.ts:209-279) -/

/-- Building the contact for one normalized email (route.ts:239-242):
an address containing the substring `"hr"` is an "HR email". -/
def emailContact (email : String) : JobContact :=
  { label := if jsHasSubstr email "hr" then "HR email" else "Contact email",
    value := email }

/-- One email insertion (route.ts:237-244): first occurrence wins. -/
def insertEmail (m : List (String × JobContact)) (email : String) :
    List (String × JobContact) :=
  if mapHas m email then m else m ++ [(email, emailContact email)]

/-- The `forEach` over normalized emails (route.ts:234-244). -/
def insertEmails (m : List (String × JobContact)) (emails : List String) :
    List (String × JobContact) :=
  emails.foldl insertEmail m

/-- One phone insertion (route.ts:259-267): key namespaced as
`"phone-" + phone`. -/
def insertPhone (m : List (String × JobContact)) (phone : String) :
    List (String × JobContact) :=
  if mapHas m ("phone-" ++ phone) then m
  else m ++ [("phone-" ++ phone, { label := "Phone", value := phone })]

/-- The `forEach` over the deduplicated phone set (route.ts:259-267). -/
def insertPhones (m : List (String × JobContact)) (phones : List String) :
    List (String × JobContact) :=
  phones.foldl insertPhone m

/-- The `Set<string>` of normalized phone matches (route.ts:246-257):
normalize each raw match, keep it when it has at least 8 characters, and
deduplicate keeping the first occurrence (JS `Set` insertion order). -/
def phonesSet (ms : List String) : List String :=
  ms.foldl
    (fun acc mt =>
      let n := normalizePhone mt
      if 8 ≤ n.length ∧ ¬ acc.contains n then acc ++ [n] else acc)
    []

/-- The email pool of route.ts:215-236: employer-email field, then a
`mailto:` apply link stripped of its scheme, then every description
match; all lower-cased and filtered to contain `@`. -/
def normalizedEmails (job : JSearchJob) : List String :=
  let description := (ensureString job.job_description).getD ""
  let applyLink := ensureString job.job_apply_link
  let employerEmails :=
    (match ensureString job.employer_email with
     | some e => [e]
     | none => [])
    ++ (match applyLink with
        | some l =>
          if jsStartsWith l "mailto:" then [String.mk (l.data.drop 7)] else []
        | none => [])
    ++ (if description = "" then [] else emailMatches description)
  (employerEmails.map jsLower).filter (fun e => e.data.contains '@')

/-- The deduplicated phone list of route.ts:246-257. -/
def phonesOf (job : JSearchJob) : List String :=
  let description := (ensureString job.job_description).getD ""
  if description = "" then [] else phonesSet (phoneMatches description)

/-- Website value normalization (route.ts:272-274). -/
def normalizeWebsite (w : String) : String :=
  if jsStartsWith w "http" then w else "https://" ++ w

/-- `extractContacts` (route.ts:209-279): emails, then phones, then the
website entry under the fixed key `"website"`; the map's values in
insertion order are returned. -/
def extractContacts (job : JSearchJob) : List JobContact :=
  let m1 := insertEmails [] (normalizedEmails job)
  let m2 := insertPhones m1 (phonesOf job)
  let m3 :=
    match ensureString job.employer_website with
    | some w => mapSet m2 "website"
        { label := "Company website", value := normalizeWebsite w }
    | none => m2
  mapValues m3

/-! ### `formatSalary` (route.ts:124-165)

The `Intl.NumberFormat("en-IN", { style: "currency", currency,
maximumFractionDigits: 0 })` formatter is an external library value; it
is passed in as `fmt : String → Int → String` (currency code and amount
to rendered string). -/

/-- JS truthiness of an optional number (`0` and absent are falsy). -/
def truthyNum (v : Option Int) : Bool :=
  match v with
  | some n => n ≠ 0
  | none => false

/-- The ` / <period>` suffix (route.ts:155, 162): JS truthiness of the
resolved period string — the empty string is falsy. -/
def periodSuffix (resolvedPeriod : Option String) : String :=
  match resolvedPeriod with
  | some p => if p = "" then "" else " / " ++ p
  | none => ""

/-- `formatSalary` (route.ts:124-165). -/
def formatSalary (fmt : String → Int → String) (job : JSearchJob) :
    Option String :=
  match job.job_salary with
  | none => none
  | some salary =>
    let min := optOr salary.salary_min salary.min_salary
    let max := optOr salary.salary_max salary.max_salary
    let resolvedPeriod := optOr salary.salary_period salary.period
    if ¬ truthyNum min ∧ ¬ truthyNum max then none
    else
      let cur := salary.currency.getD "INR"
      if truthyNum min ∧ truthyNum max then
        some (fmt cur (min.getD 0) ++ " - " ++ fmt cur (max.getD 0)
          ++ periodSuffix resolvedPeriod)
      else
        let value := optOr min max
        if truthyNum value then
          some (fmt cur (value.getD 0) ++ periodSuffix resolvedPeriod)
        else none

/-! ### `formatPosted` (route.ts:167-207)

`new Date(iso)` is modelled by a parameter `parseDate : String → Option
Int` (epoch milliseconds when valid), `new Date()` by `now : Int`, and
`toLocaleDateString("en-IN", …)` by `localeDate : Int → String`. -/

/-- `formatPosted` (route.ts:167-207).  `ensureString` applied to the
numeric `job_posted_at_timestamp` field is always `undefined` (its
`typeof` is not `"string"`), so the `iso` chain only inspects the two
string fields; the numeric field is used through the epoch-seconds
fallback branch (route.ts:181-183). -/
def formatPosted (parseDate : String → Option Int) (localeDate : Int → String)
    (now : Int) (dateSource : JSearchJob) : Option String :=
  let iso := optOr (ensureString dateSource.job_posted_at_datetime_utc)
    (ensureString dateSource.job_posted_at)
  let date : Option Int :=
    optOr (iso.bind parseDate) (dateSource.job_posted_at_timestamp.map (· * 1000))
  match date with
  | none => none
  | some d =>
    let diffMs := now - d
    let diffDays := Int.fdiv diffMs (1000 * 60 * 60 * 24)
    if diffDays < 1 then
      let diffHours := Int.fdiv diffMs (1000 * 60 * 60)
      some (if diffHours ≤ 1 then "Posted less than an hour ago"
        else "Posted " ++ toString diffHours ++ "h ago")
    else if diffDays < 7 then
      some (if diffDays = 1 then "Posted yesterday"
        else "Posted " ++ toString diffDays ++ " days ago")
    else
      some (localeDate d)

/-! ### `fetchCompanyInsight` (route.ts:281-331)

The outbound HTTP call is modelled by a `transport` function giving, per
queried name, the outcome of `fetch` + `response.json()`:
a thrown network error, or a response with its `ok` flag and the parse
outcome of its body.  The `try/catch` of route.ts:292-330 turns every
throwing path into `undefined`, which the model returns as `none`. -/

/-- `ClearbitSuggestion` (route.ts:281-289); `twitter`/`linkedin` are
optional objects holding a `handle` string. -/
structure ClearbitSuggestion where
  name : String
  domain : Option String := none
  logo : Option String := none
  description : Option String := none
  location : Option String := none
  twitter : Option String := none
  linkedin : Option String := none
deriving DecidableEq, Repr

/-- Outcome of `await response.json()` on an `ok` response. -/
inductive BodyOutcome where
  /-- `response.json()` rejects (malformed body); the exception is caught. -/
  | malformed : BodyOutcome
  /-- The body parses but `Array.isArray(data)` is false. -/
  | nonArray : BodyOutcome
  /-- The body parses to an array of suggestions. -/
  | array (data : List ClearbitSuggestion) : BodyOutcome
deriving DecidableEq, Repr

/-- Outcome of the outbound `fetch` for one queried name. -/
inductive FetchResult where
  /-- `fetch` itself rejects (network failure); the exception is caught. -/
  | netError : FetchResult
  /-- A response with its `ok` flag and the body parse outcome. -/
  | response (ok : Bool) (body : BodyOutcome) : FetchResult
deriving DecidableEq, Repr

/-- Mapping of the best match into `CompanyInsight` shape
(route.ts:313-326): the social handles become full profile URLs under
the fixed base URLs, and only when the handle is truthy (a missing
object or an empty handle string yields `undefined`). -/
def toCompanyInsight (bestMatch : ClearbitSuggestion) : CompanyInsight :=
  { name := bestMatch.name
    domain := bestMatch.domain
    description := bestMatch.description
    logo := bestMatch.logo
    location := bestMatch.location
    twitter :=
      match bestMatch.twitter with
      | some handle =>
        if handle = "" then none else some ("https://twitter.com/" ++ handle)
      | none => none
    linkedin :=
      match bestMatch.linkedin with
      | some handle =>
        if handle = "" then none
        else some ("https://www.linkedin.com/" ++ handle)
      | none => none }

/-- `fetchCompanyInsight` (route.ts:291-331). -/
def fetchCompanyInsight (transport : String → FetchResult) (name : String) :
    Option CompanyInsight :=
  match transport name with
  | .netError => none
  | .response ok body =>
    if ¬ ok then none
    else
      match body with
      | .malformed => none
      | .nonArray => none
      | .array [] => none
      | .array (bestMatch :: _) => some (toCompanyInsight bestMatch)

/-! ### The enrichment portion of `POST` (route.ts:415-464)

The handler slices the raw result list to 12 entries and runs one
enrichment task per retained entry through `Promise.all`, which resolves
to the results in the order of its input array regardless of the
completion order of the individual promises — embedded as an
order-preserving map.  `crypto.randomUUID()` is modelled by an indexed
supply `uuid : Nat → String`.  Next to the produced `JobResult`, the
model returns the list of company names passed to `fetchCompanyInsight`,
so that theorems can speak about which lookups were invoked. -/

/-- The per-listing enrichment closure (route.ts:424-463), returning the
`JobResult` together with the lookup-call log of this listing. -/
def enrichJob (lookup : String → Option CompanyInsight)
    (fmt : String → Int → String) (parseDate : String → Option Int)
    (localeDate : Int → String) (now : Int) (fallbackTitle uuid : String)
    (job : JSearchJob) : JobResult × List String :=
  let companyName := (ensureString job.employer_name).getD "Unknown company"
  let contacts := extractContacts job
  let highlightSections :=
    match job.job_highlights with
    | some h =>
      h.Qualifications.getD [] ++ h.Responsibilities.getD [] ++ h.Benefits.getD []
    | none => []
  let companyInsight :=
    if companyName ≠ "Unknown company" then lookup companyName else none
  let calls := if companyName ≠ "Unknown company" then [companyName] else []
  ({ id := (ensureString job.job_id).getD uuid
     title := (ensureString job.job_title).getD fallbackTitle
     company := companyName
     city := ensureString job.job_city
     state := ensureString job.job_state
     country := ensureString job.job_country
     remote := job.job_is_remote.getD false
     employmentType := ensureString job.job_employment_type
     salary := formatSalary fmt job
     applyLink := ensureString job.job_apply_link
     description := ensureString job.job_description
     highlights := highlightSections.take 6
     postedAt := formatPosted parseDate localeDate now job
     contacts := contacts
     companyInsight := companyInsight }, calls)

/-- The enrichment orchestration of `POST` (route.ts:415-464): empty raw
list short-circuits to an empty response; otherwise the list is trimmed
to its first 12 entries and fan-out/fan-in preserves the trimmed order.
Returns the enriched listings and the combined lookup-call log. -/
def enrichJobs (lookup : String → Option CompanyInsight)
    (fmt : String → Int → String) (parseDate : String → Option Int)
    (localeDate : Int → String) (now : Int) (fallbackTitle : String)
    (uuid : Nat → String) (jobs : List JSearchJob) :
    List JobResult × List String :=
  if jobs.length = 0 then ([], [])
  else
    let trimmedJobs := jobs.take 12
    let pairs := trimmedJobs.mapIdx
      (fun i job =>
        enrichJob lookup fmt parseDate localeDate now fallbackTitle (uuid i) job)
    (pairs.map Prod.fst, (pairs.map Prod.snd).flatten)

/-! ### Derived views used by the stated properties -/

/-- The dedup key of an emitted candidate, as §3/§8 of the spec describe
it: an email candidate (labelled "HR email" or "Contact email") is keyed
by its lower-cased value, a phone candidate by its normalized value
namespaced apart from emails with the `"phone-"` prefix, and the website
candidate by the fixed string `"website"` — exactly the map keys
`extractContacts` uses. -/
def dedupKey (c : JobContact) : String :=
  if c.label = "Phone" then "phone-" ++ c.value
  else if c.label = "Company website" then "website"
  else jsLower c.value

/-- First-occurrence deduplication of a string list, with the already
seen values as accumulator. -/
def dedupFirstAux (seen : List String) : List String → List String
  | [] => []
  | e :: es =>
    if e ∈ seen then dedupFirstAux seen es
    else e :: dedupFirstAux (seen ++ [e]) es

/-- First-occurrence deduplication of a string list. -/
def dedupFirst (l : List String) : List String :=
  dedupFirstAux [] l

/-- The email segment of the extractor output: the deduplicated email
pool in source-collection order, first occurrence winning. -/
def emailCandidates (job : JSearchJob) : List JobContact :=
  (dedupFirst (normalizedEmails job)).map emailContact

/-- The phone segment of the extractor output, in insertion order. -/
def phoneCandidates (job : JSearchJob) : List JobContact :=
  (phonesOf job).map (fun p => { label := "Phone", value := p })

/-- The website candidate, when the employer-website field is present. -/
def websiteCandidate (job : JSearchJob) : Option JobContact :=
  (ensureString job.employer_website).map
    (fun w => { label := "Company website", value := normalizeWebsite w })

/-- The characters `PHONE_REGEX` can draw a raw match from: the optional
leading `+`, the leading/trailing digits, and the body class. -/
def isPhoneTokenChar (c : Char) : Bool :=
  c = '+' ∨ isDigitChar c ∨ isPhoneBodyChar c

/-! ### Basic helper lemmas -/

theorem lowerChar_idem (c : Char) : lowerChar (lowerChar c) = lowerChar c := by
  unfold lowerChar
  by_cases h : 65 ≤ c.toNat ∧ c.toNat ≤ 90
  · have hv : (c.toNat + 32).isValidChar := by
      left
      omega
    have ht : (Char.ofNat (c.toNat + 32)).toNat = c.toNat + 32 := by
      simp [Char.ofNat, hv]
      rfl
    rw [if_pos h, ht, if_neg (by omega)]
  · rw [if_neg h, if_neg h]

theorem jsLower_idem (s : String) : jsLower (jsLower s) = jsLower s := by
  unfold jsLower
  apply congrArg String.mk
  show (s.data.map lowerChar).map lowerChar = s.data.map lowerChar
  rw [List.map_map]
  exact List.map_congr_left (fun c _ => lowerChar_idem c)

theorem str_append_left_cancel {p a b : String} (h : p ++ a = p ++ b) : a = b := by
  apply String.ext
  exact List.append_cancel_left (congrArg String.data h)

theorem phone_key_injective :
    Function.Injective (fun p : String => "phone-" ++ p) := by
  intro a b h
  exact str_append_left_cancel h

/-- Every character of `"phone-" ++ p` other than the fixed prefix comes
from `p`; in particular the key contains no `@` when `p` does not. -/
theorem at_notin_phone_key {p : String} (hp : '@' ∉ p.data) :
    '@' ∉ ("phone-" ++ p).data := by
  intro h
  have h2 : '@' ∈ ("phone-" : String).data ++ p.data := h
  rcases List.mem_append.mp h2 with h3 | h3
  · exact absurd h3 (by decide)
  · exact hp h3

theorem phone_key_ne_website (p : String) : "phone-" ++ p ≠ "website" := by
  intro h
  have h2 : (("phone-" ++ p : String).data).head? = ("website" : String).data.head? :=
    congrArg (fun s : String => s.data.head?) h
  have h3 : (some 'p' : Option Char) = some 'w' := h2
  exact absurd h3 (by decide)

/-! ### Character provenance of phone matches -/

theorem mem_phoneCore {s m r : List Char} (h : phoneCore s = some (m, r)) :
    ∀ c ∈ m, isPhoneTokenChar c := by
  unfold phoneCore at h
  split at h
  · exact absurd h (by simp)
  · rename_i d rest
    split at h
    · rename_i hd
      simp only [] at h
      split at h
      · rename_i len hlast
        rw [Option.some.injEq, Prod.mk.injEq] at h
        intro c hc
        rw [← h.1] at hc
        rcases List.mem_cons.mp hc with hc | hc
        · subst hc
          unfold isPhoneTokenChar
          simp [hd]
        · have hrun : c ∈ rest.takeWhile isPhoneBodyChar :=
            List.take_subset _ _ hc
          have := List.mem_takeWhile_imp hrun
          unfold isPhoneTokenChar
          simp [this]
      · exact absurd h (by simp)
    · exact absurd h (by simp)

theorem mem_phoneAt {s m r : List Char} (h : phoneAt s = some (m, r)) :
    ∀ c ∈ m, isPhoneTokenChar c := by
  unfold phoneAt at h
  split at h
  · rename_i rest
    cases hc : phoneCore rest with
    | none => rw [hc] at h; exact absurd h (by simp)
    | some p =>
      rw [hc] at h
      simp only [Option.map_some'] at h
      rw [Option.some.injEq, Prod.mk.injEq] at h
      intro c hmem
      rw [← h.1] at hmem
      rcases List.mem_cons.mp hmem with h1 | h1
      · subst h1; decide
      · exact mem_phoneCore (by rw [hc]) c h1
  · exact mem_phoneCore h

theorem mem_scanMatches {matchAt : List Char → Option (List Char × List Char)}
    {P : Char → Prop}
    (hm : ∀ s m r, matchAt s = some (m, r) → ∀ c ∈ m, P c) :
    ∀ fuel s l, l ∈ scanMatches matchAt fuel s → ∀ c ∈ l, P c := by
  intro fuel
  induction fuel with
  | zero =>
    intro s l h
    simp [scanMatches] at h
  | succ n ih =>
    intro s l h
    match s with
    | [] => simp [scanMatches] at h
    | c0 :: cs =>
      rw [scanMatches] at h
      cases hma : matchAt (c0 :: cs) with
      | none =>
        rw [hma] at h
        exact ih cs l h
      | some pr =>
        rw [hma] at h
        rcases List.mem_cons.mp h with h1 | h1
        · subst h1
          exact hm _ _ _ (by rw [hma])
        · exact ih pr.2 l h1

theorem mem_collapseWs : ∀ (l : List Char) (c : Char), c ∈ collapseWs l → c = ' ' ∨ c ∈ l := by
  intro l
  induction l with
  | nil => intro c h; simp [collapseWs] at h
  | cons a as ih =>
    intro c h
    cases as with
    | nil =>
      rw [collapseWs] at h
      split at h
      · left
        simpa using h
      · right
        simpa using h
    | cons d cs =>
      rw [collapseWs] at h
      split at h
      · split at h
        · rcases ih c h with h1 | h1
          · exact Or.inl h1
          · exact Or.inr (List.mem_cons_of_mem _ h1)
        · rcases List.mem_cons.mp h with h1 | h1
          · exact Or.inl h1
          · rcases ih c h1 with h2 | h2
            · exact Or.inl h2
            · exact Or.inr (List.mem_cons_of_mem _ h2)
      · rcases List.mem_cons.mp h with h1 | h1
        · exact Or.inr (h1 ▸ List.mem_cons_self _ _)
        · rcases ih c h1 with h2 | h2
          · exact Or.inl h2
          · exact Or.inr (List.mem_cons_of_mem _ h2)

theorem mem_trimWs {l : List Char} {c : Char} (h : c ∈ trimWs l) : c ∈ l := by
  unfold trimWs at h
  rw [List.mem_reverse] at h
  have h2 := (List.dropWhile_sublist _).mem h
  rw [List.mem_reverse] at h2
  exact (List.dropWhile_sublist _).mem h2

theorem mem_normalizePhone {s : String} {c : Char}
    (h : c ∈ (normalizePhone s).data) : c = ' ' ∨ c ∈ s.data := by
  have h1 : c ∈ trimWs (collapseWs s.data) := h
  exact mem_collapseWs _ _ (mem_trimWs h1)

/-! ### Provenance and distinctness of the phone set -/

theorem mem_phonesSet_aux (ms : List String) :
    ∀ (acc : List String) (x : String),
      x ∈ ms.foldl
        (fun acc mt =>
          let n := normalizePhone mt
          if 8 ≤ n.length ∧ ¬ acc.contains n then acc ++ [n] else acc) acc →
      x ∈ acc ∨ ∃ mt ∈ ms, x = normalizePhone mt := by
  induction ms with
  | nil =>
    intro acc x h
    exact Or.inl h
  | cons mt ms ih =>
    intro acc x h
    rw [List.foldl_cons] at h
    rcases ih _ x h with h1 | h1
    · by_cases hc : 8 ≤ (normalizePhone mt).length ∧ ¬ acc.contains (normalizePhone mt)
      · rw [if_pos hc] at h1
        rcases List.mem_append.mp h1 with h2 | h2
        · exact Or.inl h2
        · right
          exact ⟨mt, List.mem_cons_self _ _, by simpa using h2⟩
      · rw [if_neg hc] at h1
        exact Or.inl h1
    · right
      obtain ⟨mt', hmt', hx⟩ := h1
      exact ⟨mt', List.mem_cons_of_mem _ hmt', hx⟩

theorem mem_phonesSet {ms : List String} {x : String} (h : x ∈ phonesSet ms) :
    ∃ mt ∈ ms, x = normalizePhone mt := by
  rcases mem_phonesSet_aux ms [] x h with h1 | h1
  · simp at h1
  · exact h1

theorem phonesSet_nodup_aux (ms : List String) :
    ∀ acc : List String, acc.Nodup →
      (ms.foldl
        (fun acc mt =>
          let n := normalizePhone mt
          if 8 ≤ n.length ∧ ¬ acc.contains n then acc ++ [n] else acc) acc).Nodup := by
  induction ms with
  | nil => intro acc h; exact h
  | cons mt ms ih =>
    intro acc hacc
    rw [List.foldl_cons]
    apply ih
    by_cases hc : 8 ≤ (normalizePhone mt).length ∧ ¬ acc.contains (normalizePhone mt)
    · rw [if_pos hc]
      rw [List.nodup_append]
      refine ⟨hacc, List.nodup_singleton _, ?_⟩
      intro a ha ha2
      have : a = normalizePhone mt := by simpa using ha2
      subst this
      exact hc.2 (List.elem_iff.mpr ha)
    · rw [if_neg hc]
      exact hacc

theorem phonesSet_nodup (ms : List String) : (phonesSet ms).Nodup :=
  phonesSet_nodup_aux ms [] List.nodup_nil

theorem phonesOf_nodup (job : JSearchJob) : (phonesOf job).Nodup := by
  unfold phonesOf
  simp only []
  split
  · exact List.nodup_nil
  · exact phonesSet_nodup _

theorem phonesOf_no_at {job : JSearchJob} {p : String} (h : p ∈ phonesOf job) :
    '@' ∉ p.data := by
  unfold phonesOf at h
  simp only [] at h
  split at h
  · simp at h
  · obtain ⟨mt, hmt, rfl⟩ := mem_phonesSet h
    obtain ⟨l, hl, rfl⟩ := List.mem_map.mp hmt
    intro hat
    rcases mem_normalizePhone hat with h1 | h1
    · exact absurd h1 (by decide)
    · have h2 : ∀ c ∈ l, isPhoneTokenChar c :=
        mem_scanMatches (fun s m r hm => mem_phoneAt hm) _ _ _ hl
      have h3 : isPhoneTokenChar '@' = true := h2 '@' h1
      exact absurd h3 (by decide)

/-! ### Provenance of the email pool -/

theorem mem_normalizedEmails {job : JSearchJob} {e : String}
    (h : e ∈ normalizedEmails job) : jsLower e = e ∧ '@' ∈ e.data := by
  unfold normalizedEmails at h
  rw [List.mem_filter] at h
  obtain ⟨hmem, hat⟩ := h
  obtain ⟨x, _, rfl⟩ := List.mem_map.mp hmem
  exact ⟨jsLower_idem x, List.elem_iff.mp hat⟩

/-! ### The contact map -/

theorem mapHas_iff {m : List (String × JobContact)} {k : String} :
    mapHas m k = true ↔ k ∈ m.map Prod.fst := by
  unfold mapHas
  rw [List.any_eq_true]
  constructor
  · rintro ⟨e, he, heq⟩
    rw [beq_iff_eq] at heq
    exact heq ▸ List.mem_map_of_mem _ he
  · intro hk
    obtain ⟨e, he, heq⟩ := List.mem_map.mp hk
    exact ⟨e, he, by rw [beq_iff_eq]; exact heq⟩

theorem mapHas_false_iff {m : List (String × JobContact)} {k : String} :
    mapHas m k = false ↔ k ∉ m.map Prod.fst := by
  rw [← mapHas_iff]
  cases mapHas m k <;> simp

theorem mapSet_fresh {m : List (String × JobContact)} {k : String}
    {v : JobContact} (h : mapHas m k = false) : mapSet m k v = m ++ [(k, v)] := by
  induction m with
  | nil => rfl
  | cons e rest ih =>
    unfold mapHas at h
    rw [List.any_cons, Bool.or_eq_false_iff] at h
    rw [mapSet, if_neg (by simp [h.1]), ih h.2]
    rfl

theorem insertEmails_eq (l : List String) :
    ∀ m, insertEmails m l
      = m ++ (dedupFirstAux (m.map Prod.fst) l).map (fun e => (e, emailContact e)) := by
  induction l with
  | nil =>
    intro m
    simp [insertEmails, dedupFirstAux]
  | cons e es ih =>
    intro m
    have hstep : insertEmails m (e :: es) = insertEmails (insertEmail m e) es := by
      unfold insertEmails
      rw [List.foldl_cons]
    rw [hstep]
    by_cases h : mapHas m e = true
    · have hmem : e ∈ m.map Prod.fst := mapHas_iff.mp h
      rw [show insertEmail m e = m from by rw [insertEmail, if_pos h]]
      rw [ih m, dedupFirstAux, if_pos hmem]
    · have hfalse : mapHas m e = false := by
        cases hh : mapHas m e
        · rfl
        · exact absurd hh h
      have hnmem : e ∉ m.map Prod.fst := mapHas_false_iff.mp hfalse
      rw [show insertEmail m e = m ++ [(e, emailContact e)] from by
        rw [insertEmail, if_neg (by rw [hfalse]; simp)]]
      rw [ih (m ++ [(e, emailContact e)])]
      rw [dedupFirstAux, if_neg hnmem]
      rw [List.map_append]
      simp [List.append_assoc]

theorem insertPhones_eq (P : List String) :
    ∀ m, (∀ p ∈ P, mapHas m ("phone-" ++ p) = false) → P.Nodup →
      insertPhones m P
        = m ++ P.map
            (fun p => ("phone-" ++ p, ({ label := "Phone", value := p } : JobContact))) := by
  induction P with
  | nil =>
    intro m _ _
    simp [insertPhones]
  | cons p ps ih =>
    intro m hfresh hnodup
    have hstep : insertPhones m (p :: ps) = insertPhones (insertPhone m p) ps := by
      unfold insertPhones
      rw [List.foldl_cons]
    rw [hstep]
    have h0 : mapHas m ("phone-" ++ p) = false := hfresh p (List.mem_cons_self _ _)
    have hins : insertPhone m p
        = m ++ [("phone-" ++ p, ({ label := "Phone", value := p } : JobContact))] := by
      rw [insertPhone, if_neg (by rw [h0]; simp)]
    rw [hins]
    rw [ih (m ++ [("phone-" ++ p, ({ label := "Phone", value := p } : JobContact))])]
    · rw [List.map_cons]
      simp [List.append_assoc]
    · intro q hq
      have hq0 := hfresh q (List.mem_cons_of_mem _ hq)
      have hne : q ≠ p := by
        intro hqp
        exact (List.nodup_cons.mp hnodup).1 (hqp ▸ hq)
      unfold mapHas at hq0 ⊢
      rw [List.any_append, Bool.or_eq_false_iff]
      refine ⟨hq0, ?_⟩
      simp only [List.any_cons, List.any_nil, Bool.or_false]
      rw [beq_eq_false_iff_ne]
      intro hkey
      exact hne (phone_key_injective hkey).symm
    · exact (List.nodup_cons.mp hnodup).2

/-! ### First-occurrence dedup -/

theorem dedupFirstAux_subset : ∀ (l seen : List String), dedupFirstAux seen l ⊆ l := by
  intro l
  induction l with
  | nil => intro seen x h; simp [dedupFirstAux] at h
  | cons e es ih =>
    intro seen x h
    rw [dedupFirstAux] at h
    split at h
    · exact List.mem_cons_of_mem _ (ih seen h)
    · rcases List.mem_cons.mp h with h1 | h1
      · exact h1 ▸ List.mem_cons_self _ _
      · exact List.mem_cons_of_mem _ (ih (seen ++ [e]) h1)

theorem dedupFirstAux_nodup :
    ∀ (l seen : List String),
      (dedupFirstAux seen l).Nodup ∧ ∀ x ∈ dedupFirstAux seen l, x ∉ seen := by
  intro l
  induction l with
  | nil =>
    intro seen
    constructor
    · exact List.nodup_nil
    · intro x h
      simp [dedupFirstAux] at h
  | cons e es ih =>
    intro seen
    rw [dedupFirstAux]
    split
    · exact ih seen
    · rename_i hnotin
      obtain ⟨ihn, ihs⟩ := ih (seen ++ [e])
      constructor
      · rw [List.nodup_cons]
        refine ⟨?_, ihn⟩
        intro hmem
        exact ihs e hmem (by simp)
      · intro x hx hseen
        rcases List.mem_cons.mp hx with h1 | h1
        · exact hnotin (h1 ▸ hseen)
        · exact ihs x h1 (List.mem_append.mpr (Or.inl hseen))

theorem dedupFirst_nodup (l : List String) : (dedupFirst l).Nodup :=
  (dedupFirstAux_nodup l []).1

theorem dedupFirst_subset (l : List String) : dedupFirst l ⊆ l :=
  dedupFirstAux_subset l []

/-! ### The decomposition of `extractContacts` into its three segments -/

theorem extractContacts_segments (job : JSearchJob) :
    extractContacts job
      = emailCandidates job ++ phoneCandidates job
        ++ (websiteCandidate job).toList := by
  unfold extractContacts
  simp only []
  rw [insertEmails_eq]
  simp only [List.map_nil, List.nil_append]
  have hm1keys :
      ((dedupFirstAux ([] : List String) (normalizedEmails job)).map
        (fun e => (e, emailContact e))).map Prod.fst
        = dedupFirst (normalizedEmails job) := by
    rw [List.map_map]
    exact List.map_id _
  have hfresh : ∀ p ∈ phonesOf job,
      mapHas ((dedupFirst (normalizedEmails job)).map
        (fun e => (e, emailContact e))) ("phone-" ++ p) = false := by
    intro p hp
    rw [mapHas_false_iff, List.map_map]
    intro hmem
    rw [show (Prod.fst ∘ fun e => (e, emailContact e)) = id from rfl, List.map_id] at hmem
    have he := mem_normalizedEmails (dedupFirst_subset _ hmem)
    exact at_notin_phone_key (phonesOf_no_at hp) he.2
  rw [show dedupFirstAux ([] : List String) (normalizedEmails job)
    = dedupFirst (normalizedEmails job) from rfl]
  rw [insertPhones_eq _ _ hfresh (phonesOf_nodup job)]
  have hkeys2 :
      (((dedupFirst (normalizedEmails job)).map (fun e => (e, emailContact e))
        ++ (phonesOf job).map
          (fun p => ("phone-" ++ p, ({ label := "Phone", value := p } : JobContact)))).map
            Prod.fst)
        = dedupFirst (normalizedEmails job)
          ++ (phonesOf job).map (fun p => "phone-" ++ p) := by
    rw [List.map_append, List.map_map, List.map_map]
    rw [show (Prod.fst ∘ fun e => (e, emailContact e)) = id from rfl, List.map_id]
    rfl
  have hwfresh : mapHas ((dedupFirst (normalizedEmails job)).map
      (fun e => (e, emailContact e))
      ++ (phonesOf job).map
        (fun p => ("phone-" ++ p, ({ label := "Phone", value := p } : JobContact))))
      "website" = false := by
    rw [mapHas_false_iff, hkeys2]
    intro hmem
    rcases List.mem_append.mp hmem with h1 | h1
    · have he := mem_normalizedEmails (dedupFirst_subset _ h1)
      exact absurd he.2 (by decide)
    · obtain ⟨p, _, hp⟩ := List.mem_map.mp h1
      exact phone_key_ne_website p hp
  unfold emailCandidates phoneCandidates websiteCandidate
  cases hw : ensureString job.employer_website with
  | none =>
    simp only [Option.map_none', Option.toList_none, List.append_nil]
    unfold mapValues
    rw [List.map_append, List.map_map, List.map_map]
    rfl
  | some w =>
    dsimp only
    rw [mapSet_fresh hwfresh]
    simp only [Option.map_some', Option.toList_some]
    unfold mapValues
    rw [List.map_append, List.map_append, List.map_map, List.map_map]
    rfl

/-! ### Dedup keys of the emitted candidates -/

theorem dedupKey_emailContact {e : String} (he : jsLower e = e) :
    dedupKey (emailContact e) = e := by
  have h1 : ("HR email" : String) ≠ "Phone" := by decide
  have h2 : ("HR email" : String) ≠ "Company website" := by decide
  have h3 : ("Contact email" : String) ≠ "Phone" := by decide
  have h4 : ("Contact email" : String) ≠ "Company website" := by decide
  unfold dedupKey emailContact
  dsimp only
  by_cases h : jsHasSubstr e "hr" = true
  · rw [if_pos h, if_neg h1, if_neg h2]
    exact he
  · rw [if_neg h, if_neg h3, if_neg h4]
    exact he

theorem dedupKey_phone (p : String) :
    dedupKey { label := "Phone", value := p } = "phone-" ++ p := by
  unfold dedupKey
  dsimp only
  rw [if_pos rfl]

theorem dedupKey_website (v : String) :
    dedupKey { label := "Company website", value := v } = "website" := by
  have h1 : ("Company website" : String) ≠ "Phone" := by decide
  unfold dedupKey
  dsimp only
  rw [if_neg h1, if_pos rfl]

/-- **C1.** For every RawListing, the Text Contact Extractor's output
sequence contains no two ContactCandidates with the same dedup key: an
email's key is its lower-cased value, a phone's key is its
whitespace-normalized value namespaced apart from emails by the
`"phone-"` prefix, and the website's key is the fixed string
`"website"` (see `dedupKey`). -/
theorem extractContacts_nodup_dedupKey (job : JSearchJob) :
    ((extractContacts job).map dedupKey).Nodup := by
  rw [extractContacts_segments]
  rw [List.map_append, List.map_append]
  unfold emailCandidates phoneCandidates
  rw [List.map_map, List.map_map]
  have hemail : (dedupFirst (normalizedEmails job)).map (dedupKey ∘ emailContact)
      = dedupFirst (normalizedEmails job) := by
    have hcongr : (dedupFirst (normalizedEmails job)).map (dedupKey ∘ emailContact)
        = (dedupFirst (normalizedEmails job)).map id :=
      List.map_congr_left (fun e hmem =>
        dedupKey_emailContact (mem_normalizedEmails (dedupFirst_subset _ hmem)).1)
    rw [hcongr, List.map_id]
  have hphone : (phonesOf job).map
      (dedupKey ∘ fun p => ({ label := "Phone", value := p } : JobContact))
      = (phonesOf job).map (fun p => "phone-" ++ p) := by
    apply List.map_congr_left
    intro p _
    exact dedupKey_phone p
  rw [hemail, hphone]
  have hdisj1 : (dedupFirst (normalizedEmails job)).Disjoint
      ((phonesOf job).map (fun p => "phone-" ++ p)) := by
    intro a ha hb
    obtain ⟨p, hp, rfl⟩ := List.mem_map.mp hb
    exact at_notin_phone_key (phonesOf_no_at hp)
      (mem_normalizedEmails (dedupFirst_subset _ ha)).2
  have hw : ((websiteCandidate job).toList.map dedupKey).Nodup
      ∧ ∀ x ∈ (websiteCandidate job).toList.map dedupKey, x = "website" := by
    unfold websiteCandidate
    cases ensureString job.employer_website with
    | none => simp
    | some w =>
      simp only [Option.map_some', Option.toList_some, List.map_cons, List.map_nil]
      rw [dedupKey_website]
      exact ⟨List.nodup_singleton _, fun x hx => by simpa using hx⟩
  rw [List.nodup_append]
  refine ⟨?_, hw.1, ?_⟩
  · rw [List.nodup_append]
    refine ⟨dedupFirst_nodup _, (phonesOf_nodup job).map phone_key_injective, hdisj1⟩
  · intro a ha hb
    have hweb : a = "website" := hw.2 a hb
    subst hweb
    rcases List.mem_append.mp ha with h1 | h1
    · exact absurd (mem_normalizedEmails (dedupFirst_subset _ h1)).2 (by decide)
    · obtain ⟨p, _, hp⟩ := List.mem_map.mp h1
      exact phone_key_ne_website p hp

/-- **C4.** For every RawListing, the extractor's output is ordered as:
all email candidates first — the deduplicated email pool in
source-collection order (employer-email field, then mailto apply link,
then description matches; `dedupFirst` keeps the first occurrence, so
label and value are fixed at first insertion) — then all phone
candidates in insertion order, then the website candidate if present. -/
theorem extractContacts_ordered (job : JSearchJob) :
    extractContacts job
      = emailCandidates job ++ phoneCandidates job
        ++ (websiteCandidate job).toList :=
  extractContacts_segments job

/-- **C5 counterexample.** A RawListing whose employer-email field is
present and whose description contains zero email-pattern matches can
still produce two email candidates: a `mailto:` apply link contributes a
second address, so the output does not contain exactly one email
candidate. -/
theorem extractContacts_single_email_cex :
    (extractContacts { employer_email := some "jobs@acme.com",
                       job_apply_link := some "mailto:extra@acme.com" }).filter
      (fun c => c.label == "HR email" || c.label == "Contact email")
    = [{ label := "Contact email", value := "jobs@acme.com" },
       { label := "Contact email", value := "extra@acme.com" }] := by
  decide

/-- **C5 (amended).** For every RawListing whose employer-email field is
present (trimming to the non-blank value `e`), whose lower-cased value
contains `@`, whose apply link is not a `mailto:` link, and whose
description contains zero email-pattern matches, the extractor output
contains exactly one email candidate: value the case-folded
employer-email, labelled "HR email" exactly when the lower-cased address
contains the substring `"hr"`, else "Contact email". -/
theorem extractContacts_single_email (job : JSearchJob) (e : String)
    (h1 : ensureString job.employer_email = some e)
    (h2 : '@' ∈ (jsLower e).data)
    (h3 : ∀ l, ensureString job.job_apply_link = some l →
      jsStartsWith l "mailto:" = false)
    (h4 : emailMatches ((ensureString job.job_description).getD "") = []) :
    (extractContacts job).filter
      (fun c => c.label == "HR email" || c.label == "Contact email")
    = [{ label := if jsHasSubstr (jsLower e) "hr" = true then "HR email"
           else "Contact email",
         value := jsLower e }] := by
  have hpool : normalizedEmails job = [jsLower e] := by
    unfold normalizedEmails
    simp only []
    rw [h1]
    have happly : (match ensureString job.job_apply_link with
        | some l =>
          if jsStartsWith l "mailto:" = true then [String.mk (l.data.drop 7)]
          else []
        | none => ([] : List String)) = [] := by
      cases ha : ensureString job.job_apply_link with
      | none => rfl
      | some l =>
        dsimp only
        rw [if_neg (by rw [h3 l ha]; simp)]
    rw [happly]
    have hdesc : (if (ensureString job.job_description).getD "" = ""
        then ([] : List String)
        else emailMatches ((ensureString job.job_description).getD "")) = [] := by
      split
      · rfl
      · exact h4
    rw [hdesc]
    simp only [List.append_nil, List.map_cons, List.map_nil]
    rw [List.filter_cons]
    rw [if_pos (by simpa using List.elem_iff.mpr h2)]
    rfl
  rw [extractContacts_segments]
  rw [List.filter_append, List.filter_append]
  have hemail : (emailCandidates job).filter
      (fun c => c.label == "HR email" || c.label == "Contact email")
      = [emailContact (jsLower e)] := by
    unfold emailCandidates
    rw [hpool]
    rw [show dedupFirst [jsLower e] = [jsLower e] from by
      simp [dedupFirst, dedupFirstAux]]
    rw [List.map_cons, List.map_nil, List.filter_cons]
    rw [if_pos ?side]
    · rfl
    · unfold emailContact
      dsimp only
      by_cases h : jsHasSubstr (jsLower e) "hr" = true
      · rw [if_pos h]
        decide
      · rw [if_neg h]
        decide
  have hphone : (phoneCandidates job).filter
      (fun c => c.label == "HR email" || c.label == "Contact email") = [] := by
    rw [List.filter_eq_nil_iff]
    intro c hc
    obtain ⟨p, _, rfl⟩ := List.mem_map.mp hc
    dsimp only
    decide
  have hweb : ((websiteCandidate job).toList).filter
      (fun c => c.label == "HR email" || c.label == "Contact email") = [] := by
    unfold websiteCandidate
    cases ensureString job.employer_website with
    | none => rfl
    | some w =>
      simp only [Option.map_some', Option.toList_some]
      rw [List.filter_cons]
      rw [if_neg (by dsimp only; decide)]
      rfl
  rw [hemail, hphone, hweb]
  rfl

/-- Witness for the amended C5 at a concrete listing whose employer
email contains "hr". -/
theorem extractContacts_single_email_witness :
    (extractContacts { employer_email := some "hr@acme.com" }).filter
      (fun c => c.label == "HR email" || c.label == "Contact email")
    = [{ label := "HR email", value := "hr@acme.com" }] := by
  have h := extractContacts_single_email
    { employer_email := some "hr@acme.com" } "hr@acme.com"
    (by decide) (by decide) (fun l hl => nomatch hl) rfl
  rw [h]
  decide

/-- **C6.** Salary formatting is invariant under the provider's
field-naming convention: the same min/max/period values carried under
the primary names (`salary_min`/`salary_max`/`salary_period`) or the
alternate names (`min_salary`/`max_salary`/`period`), with the same
currency, produce identical output for every formatter behaviour. -/
theorem formatSalary_fieldname_invariant
    (fmt : String → Int → String) (cur : Option String)
    (mn mx : Option Int) (per : Option String) (job1 job2 : JSearchJob)
    (h1 : job1.job_salary = some { currency := cur, salary_min := mn,
                                   salary_max := mx, salary_period := per })
    (h2 : job2.job_salary = some { currency := cur, min_salary := mn,
                                   max_salary := mx, period := per }) :
    formatSalary fmt job1 = formatSalary fmt job2 := by
  unfold formatSalary
  rw [h1, h2]
  dsimp only
  have h3 : ∀ a : Option Int, optOr a none = a := fun a => by cases a <;> rfl
  have h4 : ∀ a : Option String, optOr a none = a := fun a => by cases a <;> rfl
  rw [h3, h3, h4]
  exact rfl

/-- Witness for C6 at concrete values under both naming conventions. -/
theorem formatSalary_fieldname_invariant_witness :
    formatSalary (fun c v => c ++ toString v)
        { job_salary := some { currency := some "USD", salary_min := some 100,
                               salary_max := some 500, salary_period := some "year" } }
      = formatSalary (fun c v => c ++ toString v)
        { job_salary := some { currency := some "USD", min_salary := some 100,
                               max_salary := some 500, period := some "year" } } :=
  formatSalary_fieldname_invariant _ _ _ _ _ _ _ rfl rfl

/-- **C7 counterexample.** A salary sub-record with `salary_min = 0` and
`salary_max = 5` has exactly one truthy resolved bound (the max), yet
the formatted salary is absent: the code resolves `min ?? max` to the
present-but-falsy `0` and rejects it, instead of formatting the single
truthy value as the claim states. -/
theorem formatSalary_falsy_min_cex :
    formatSalary (fun c v => c ++ toString v)
        { job_salary := some { salary_min := some 0, salary_max := some 5 } } = none
    ∧ truthyNum (optOr (some 0) none) = false
    ∧ truthyNum (optOr (some 5) none) = true := by
  refine ⟨by decide, by decide, by decide⟩

/-- **C7 (amended).** For every salary sub-record, with `mn`/`mx`/`per`
the resolved min, max and period (primary field names falling back to
the alternates) and the currency code defaulting to `"INR"` when
absent: if neither bound is truthy the salary is absent; if both are
truthy the output is `"<min> - <max>"` with the optional `" / <period>"`
suffix; if only the min is truthy, or the min is absent and the max
truthy, that single value is formatted with the same suffix rule; but
when the min is present with the falsy value `0` while the max is
truthy, the salary is absent (the nullish-coalescing `min ?? max`
selects the falsy `0`).  (The no-fractional-digits rendering is part of
the fixed `Intl.NumberFormat` configuration, outside this model.) -/
theorem formatSalary_cases (fmt : String → Int → String)
    (s : JobSalary) (job : JSearchJob)
    (mn mx : Option Int) (per : Option String) (cur : String)
    (hs : job.job_salary = some s)
    (hmn : optOr s.salary_min s.min_salary = mn)
    (hmx : optOr s.salary_max s.max_salary = mx)
    (hper : optOr s.salary_period s.period = per)
    (hcur : s.currency.getD "INR" = cur) :
    (truthyNum mn = false → truthyNum mx = false →
      formatSalary fmt job = none)
  ∧ (∀ a b : Int, mn = some a → mx = some b → a ≠ 0 → b ≠ 0 →
      formatSalary fmt job
        = some (fmt cur a ++ " - " ++ fmt cur b ++ periodSuffix per))
  ∧ (∀ a : Int, mn = some a → a ≠ 0 → truthyNum mx = false →
      formatSalary fmt job = some (fmt cur a ++ periodSuffix per))
  ∧ (∀ b : Int, mn = none → mx = some b → b ≠ 0 →
      formatSalary fmt job = some (fmt cur b ++ periodSuffix per))
  ∧ (∀ b : Int, mn = some 0 → mx = some b →
      formatSalary fmt job = none) := by
  unfold formatSalary
  rw [hs]
  dsimp only
  rw [hmn, hmx, hper, hcur]
  refine ⟨?_, ?_, ?_, ?_, ?_⟩
  · intro ha hb
    rw [if_pos (by simp [ha, hb])]
  · intro a b hma hmb hna hnb
    subst hma
    subst hmb
    have hta : truthyNum (some a) = true := by simp [truthyNum, hna]
    have htb : truthyNum (some b) = true := by simp [truthyNum, hnb]
    rw [if_neg (by simp [hta])]
    rw [if_pos (by simp [hta, htb])]
    rfl
  · intro a hma hna htb
    subst hma
    have hta : truthyNum (some a) = true := by simp [truthyNum, hna]
    rw [if_neg (by simp [hta])]
    rw [if_neg (by simp [htb])]
    dsimp only [optOr]
    rw [if_pos hta]
    rfl
  · intro b hma hmb hnb
    subst hma
    subst hmb
    have htb : truthyNum (some b) = true := by simp [truthyNum, hnb]
    rw [if_neg (by simp [htb])]
    rw [if_neg (by simp [truthyNum])]
    dsimp only [optOr]
    rw [if_pos htb]
    rfl
  · intro b hma hmb
    subst hma
    subst hmb
    by_cases hb : b = 0
    · subst hb
      rw [if_pos (by simp [truthyNum])]
    · rw [if_neg (by simp [truthyNum, hb])]
      rw [if_neg (by simp [truthyNum])]
      dsimp only [optOr]
      rw [if_neg (by simp [truthyNum])]

/-- Witness for the amended C7: both bounds truthy under an explicit
currency and period. -/
theorem formatSalary_cases_witness :
    formatSalary (fun c v => c ++ toString v)
        { job_salary := some { currency := some "USD", salary_min := some 100,
                               salary_max := some 500, salary_period := some "year" } }
      = some "USD100 - USD500 / year" := by
  have h := (formatSalary_cases (fun c v => c ++ toString v)
    { currency := some "USD", salary_min := some 100,
      salary_max := some 500, salary_period := some "year" }
    { job_salary := some { currency := some "USD", salary_min := some 100,
                           salary_max := some 500, salary_period := some "year" } }
    (some 100) (some 500) (some "year") "USD" rfl rfl rfl rfl rfl).2.1
    100 500 rfl rfl (by decide) (by decide)
  rw [h]
  decide

/-- **C8.** Posting-age formatting relative to the current instant
`now`, for every `Date`-parsing and locale-rendering behaviour: a
timestamp exactly 30 minutes old yields "Posted less than an hour ago";
exactly 2 days old yields "Posted 2 days ago"; exactly 1 day old yields
"Posted yesterday"; 10 days old yields the localized short calendar
date of that instant; and when no timestamp field parses to a valid
date the posting-age string is absent. -/
theorem formatPosted_cases (parseDate : String → Option Int)
    (localeDate : Int → String) (now : Int) :
    (∀ (job : JSearchJob) (s : String),
      ensureString job.job_posted_at_datetime_utc = some s →
      parseDate s = some (now - 1800000) →
      formatPosted parseDate localeDate now job
        = some "Posted less than an hour ago")
  ∧ (∀ (job : JSearchJob) (s : String),
      ensureString job.job_posted_at_datetime_utc = some s →
      parseDate s = some (now - 172800000) →
      formatPosted parseDate localeDate now job = some "Posted 2 days ago")
  ∧ (∀ (job : JSearchJob) (s : String),
      ensureString job.job_posted_at_datetime_utc = some s →
      parseDate s = some (now - 86400000) →
      formatPosted parseDate localeDate now job = some "Posted yesterday")
  ∧ (∀ (job : JSearchJob) (s : String),
      ensureString job.job_posted_at_datetime_utc = some s →
      parseDate s = some (now - 864000000) →
      formatPosted parseDate localeDate now job
        = some (localeDate (now - 864000000)))
  ∧ (∀ job : JSearchJob,
      (optOr (ensureString job.job_posted_at_datetime_utc)
        (ensureString job.job_posted_at)).bind parseDate = none →
      job.job_posted_at_timestamp = none →
      formatPosted parseDate localeDate now job = none) := by
  refine ⟨?_, ?_, ?_, ?_, ?_⟩
  · intro job s hs hp
    unfold formatPosted
    rw [hs]
    show (match optOr (Option.bind (some s) parseDate)
        (job.job_posted_at_timestamp.map (· * 1000)) with
      | none => none
      | some d => _) = _
    rw [show Option.bind (some s) parseDate = parseDate s from rfl, hp]
    dsimp only [optOr]
    rw [show now - (now - 1800000) = 1800000 from by omega]
    rw [if_pos (by decide)]
    rw [if_pos (by decide)]
  · intro job s hs hp
    unfold formatPosted
    rw [hs]
    show (match optOr (Option.bind (some s) parseDate)
        (job.job_posted_at_timestamp.map (· * 1000)) with
      | none => none
      | some d => _) = _
    rw [show Option.bind (some s) parseDate = parseDate s from rfl, hp]
    dsimp only [optOr]
    rw [show now - (now - 172800000) = 172800000 from by omega]
    rw [if_neg (by decide), if_pos (by decide), if_neg (by decide)]
    decide
  · intro job s hs hp
    unfold formatPosted
    rw [hs]
    show (match optOr (Option.bind (some s) parseDate)
        (job.job_posted_at_timestamp.map (· * 1000)) with
      | none => none
      | some d => _) = _
    rw [show Option.bind (some s) parseDate = parseDate s from rfl, hp]
    dsimp only [optOr]
    rw [show now - (now - 86400000) = 86400000 from by omega]
    rw [if_neg (by decide), if_pos (by decide), if_pos (by decide)]
  · intro job s hs hp
    unfold formatPosted
    rw [hs]
    show (match optOr (Option.bind (some s) parseDate)
        (job.job_posted_at_timestamp.map (· * 1000)) with
      | none => none
      | some d => _) = _
    rw [show Option.bind (some s) parseDate = parseDate s from rfl, hp]
    dsimp only [optOr]
    rw [show now - (now - 864000000) = 864000000 from by omega]
    rw [if_neg (by decide), if_neg (by decide)]
  · intro job hbind hts
    unfold formatPosted
    simp only []
    rw [hbind, hts]
    rfl

/-- Witness for C8: the five scenarios at concrete parse/locale
behaviours and `now = 0`. -/
theorem formatPosted_cases_witness :
    formatPosted (fun _ => some (-1800000)) (fun d => "D" ++ toString d) 0
        { job_posted_at_datetime_utc := some "t" }
      = some "Posted less than an hour ago"
  ∧ formatPosted (fun _ => some (-172800000)) (fun d => "D" ++ toString d) 0
        { job_posted_at_datetime_utc := some "t" } = some "Posted 2 days ago"
  ∧ formatPosted (fun _ => some (-86400000)) (fun d => "D" ++ toString d) 0
        { job_posted_at_datetime_utc := some "t" } = some "Posted yesterday"
  ∧ formatPosted (fun _ => some (-864000000)) (fun d => "D" ++ toString d) 0
        { job_posted_at_datetime_utc := some "t" } = some "D-864000000"
  ∧ formatPosted (fun _ => none) (fun d => "D" ++ toString d) 0 {} = none := by
  refine ⟨?_, ?_, ?_, ?_, ?_⟩
  · exact (formatPosted_cases (fun _ => some (-1800000))
      (fun d => "D" ++ toString d) 0).1 _ "t" (by decide) (by decide)
  · exact (formatPosted_cases (fun _ => some (-172800000))
      (fun d => "D" ++ toString d) 0).2.1 _ "t" (by decide) (by decide)
  · exact (formatPosted_cases (fun _ => some (-86400000))
      (fun d => "D" ++ toString d) 0).2.2.1 _ "t" (by decide) (by decide)
  · have h := (formatPosted_cases (fun _ => some (-864000000))
      (fun d => "D" ++ toString d) 0).2.2.2.1
      { job_posted_at_datetime_utc := some "t" } "t" (by decide) (by decide)
    rw [h]
    decide
  · exact (formatPosted_cases (fun _ => none)
      (fun d => "D" ++ toString d) 0).2.2.2.2 {} rfl rfl

/-- **C3.** For every transport behaviour and non-empty company name,
the Company Insight Lookup is total (the `try/catch` absorbs every
throwing path): a network failure, a non-2xx response, a malformed or
non-array body, or an empty match list each yield nothing; on success
the first entry of the match list is mapped to the `CompanyInsight`,
with the Twitter and LinkedIn handles prefixed by their fixed base
URLs. -/
theorem fetchCompanyInsight_spec (transport : String → FetchResult)
    (name : String) (hname : name ≠ "") :
    (transport name = .netError → fetchCompanyInsight transport name = none)
  ∧ (∀ body, transport name = .response false body →
      fetchCompanyInsight transport name = none)
  ∧ (transport name = .response true .malformed →
      fetchCompanyInsight transport name = none)
  ∧ (transport name = .response true .nonArray →
      fetchCompanyInsight transport name = none)
  ∧ (transport name = .response true (.array []) →
      fetchCompanyInsight transport name = none)
  ∧ (∀ bestMatch rest,
      transport name = .response true (.array (bestMatch :: rest)) →
      fetchCompanyInsight transport name = some (toCompanyInsight bestMatch)
      ∧ (∀ h : String, bestMatch.twitter = some h → h ≠ "" →
          (toCompanyInsight bestMatch).twitter
            = some ("https://twitter.com/" ++ h))
      ∧ (bestMatch.twitter = none → (toCompanyInsight bestMatch).twitter = none)
      ∧ (∀ h : String, bestMatch.linkedin = some h → h ≠ "" →
          (toCompanyInsight bestMatch).linkedin
            = some ("https://www.linkedin.com/" ++ h))
      ∧ (bestMatch.linkedin = none →
          (toCompanyInsight bestMatch).linkedin = none)) := by
  refine ⟨?_, ?_, ?_, ?_, ?_, ?_⟩
  · intro h
    unfold fetchCompanyInsight
    rw [h]
  · intro body h
    unfold fetchCompanyInsight
    rw [h]
    rfl
  · intro h
    unfold fetchCompanyInsight
    rw [h]
    rfl
  · intro h
    unfold fetchCompanyInsight
    rw [h]
    rfl
  · intro h
    unfold fetchCompanyInsight
    rw [h]
    rfl
  · intro bestMatch rest h
    refine ⟨?_, ?_, ?_, ?_, ?_⟩
    · unfold fetchCompanyInsight
      rw [h]
      rfl
    · intro hd htw hne
      unfold toCompanyInsight
      dsimp only
      rw [htw]
      dsimp only
      rw [if_neg hne]
    · intro htw
      unfold toCompanyInsight
      dsimp only
      rw [htw]
    · intro hd hli hne
      unfold toCompanyInsight
      dsimp only
      rw [hli]
      dsimp only
      rw [if_neg hne]
    · intro hli
      unfold toCompanyInsight
      dsimp only
      rw [hli]

/-- Witness for C3: a successful lookup with one suggestion, and a
network failure. -/
theorem fetchCompanyInsight_spec_witness :
    fetchCompanyInsight
        (fun _ => .response true (.array [{ name := "Acme", twitter := some "acme" }]))
        "Acme"
      = some (toCompanyInsight { name := "Acme", twitter := some "acme" })
  ∧ fetchCompanyInsight (fun _ => .netError) "Acme" = none := by
  constructor
  · exact ((fetchCompanyInsight_spec _ "Acme" (by decide)).2.2.2.2.2
      { name := "Acme", twitter := some "acme" } [] rfl).1
  · exact (fetchCompanyInsight_spec _ "Acme" (by decide)).1 rfl

/-- **C2.** For every raw result list and every (deterministic) lookup
behaviour, the enrichment orchestration returns exactly
`min (input count) 12` EnrichedListings, in exactly the order of the
first 12 input entries (Promise.all resolves in input order), and an
empty raw list yields an empty output with no lookup invoked (empty
call log). -/
theorem enrichJobs_bounded_ordered (lookup : String → Option CompanyInsight)
    (fmt : String → Int → String) (parseDate : String → Option Int)
    (localeDate : Int → String) (now : Int) (fallbackTitle : String)
    (uuid : Nat → String) (jobs : List JSearchJob) :
    (enrichJobs lookup fmt parseDate localeDate now fallbackTitle uuid jobs).1.length
      = min jobs.length 12
  ∧ (enrichJobs lookup fmt parseDate localeDate now fallbackTitle uuid jobs).1
      = (jobs.take 12).mapIdx (fun i job =>
          (enrichJob lookup fmt parseDate localeDate now fallbackTitle (uuid i) job).1)
  ∧ (jobs = [] →
      enrichJobs lookup fmt parseDate localeDate now fallbackTitle uuid jobs
        = ([], [])) := by
  by_cases hj : jobs.length = 0
  · have hnil : jobs = [] := List.length_eq_zero.mp hj
    subst hnil
    exact ⟨rfl, rfl, fun _ => rfl⟩
  · unfold enrichJobs
    rw [if_neg hj]
    dsimp only
    refine ⟨?_, ?_, ?_⟩
    · rw [List.length_map, List.length_mapIdx, List.length_take]
      omega
    · rw [List.mapIdx_eq_enum_map, List.map_map, List.mapIdx_eq_enum_map]
      rfl
    · intro h
      exact absurd (by rw [h]; rfl) hj

/-- Witness for C2 at the empty raw list. -/
theorem enrichJobs_bounded_ordered_witness :
    enrichJobs (fun _ => none) (fun _ _ => "") (fun _ => none) (fun _ => "")
      0 "t" (fun _ => "u") [] = ([], []) :=
  (enrichJobs_bounded_ordered _ _ _ _ _ _ _ []).2.2 rfl

/-- **C9.** The Company Insight Lookup is never invoked with the
sentinel `"Unknown company"`: the orchestrator's call log never
contains the sentinel, and for every listing whose employer name is
absent or blank the per-listing task performs no lookup and its
EnrichedListing carries no CompanyInsight, regardless of the lookup's
behaviour. -/
theorem lookup_sentinel_skipped (lookup : String → Option CompanyInsight)
    (fmt : String → Int → String) (parseDate : String → Option Int)
    (localeDate : Int → String) (now : Int) (fallbackTitle : String)
    (uuid : Nat → String) :
    (∀ jobs : List JSearchJob,
      "Unknown company"
        ∉ (enrichJobs lookup fmt parseDate localeDate now fallbackTitle uuid jobs).2)
  ∧ (∀ (job : JSearchJob) (u : String), ensureString job.employer_name = none →
      (enrichJob lookup fmt parseDate localeDate now fallbackTitle u job).1.companyInsight
        = none
      ∧ (enrichJob lookup fmt parseDate localeDate now fallbackTitle u job).2 = []) := by
  constructor
  · intro jobs hmem
    unfold enrichJobs at hmem
    by_cases hj : jobs.length = 0
    · rw [if_pos hj] at hmem
      simp at hmem
    · rw [if_neg hj] at hmem
      dsimp only at hmem
      rw [List.mem_flatten] at hmem
      obtain ⟨l, hl, hx⟩ := hmem
      obtain ⟨pair, hpair, rfl⟩ := List.mem_map.mp hl
      rw [List.mapIdx_eq_enum_map] at hpair
      obtain ⟨⟨i, job⟩, _, rfl⟩ := List.mem_map.mp hpair
      have hx2 : "Unknown company"
          ∈ (if (ensureString job.employer_name).getD "Unknown company"
                ≠ "Unknown company"
             then [(ensureString job.employer_name).getD "Unknown company"]
             else []) := hx
      split at hx2
      · rename_i hcond
        rw [List.mem_singleton] at hx2
        exact hcond hx2.symm
      · simp at hx2
  · intro job u h
    constructor
    · show (if (ensureString job.employer_name).getD "Unknown company"
            ≠ "Unknown company"
        then lookup ((ensureString job.employer_name).getD "Unknown company")
        else none) = none
      rw [h]
      simp
    · show (if (ensureString job.employer_name).getD "Unknown company"
            ≠ "Unknown company"
        then [(ensureString job.employer_name).getD "Unknown company"]
        else []) = []
      rw [h]
      simp

/-- Witness for C9: a one-listing batch with no employer name. -/
theorem lookup_sentinel_skipped_witness :
    "Unknown company" ∉ (enrichJobs (fun _ => some { name := "X" }) (fun _ _ => "")
      (fun _ => none) (fun _ => "") 0 "t" (fun _ => "u") [{}]).2
  ∧ (enrichJob (fun _ => some { name := "X" }) (fun _ _ => "")
      (fun _ => none) (fun _ => "") 0 "t" "u" {}).1.companyInsight = none := by
  constructor
  · exact (lookup_sentinel_skipped _ _ _ _ _ _ _).1 [{}]
  · exact ((lookup_sentinel_skipped (fun _ => some { name := "X" }) (fun _ _ => "")
      (fun _ => none) (fun _ => "") 0 "t" (fun _ => "u")).2 {} "u" rfl).1

/-- **C10.** For every RawListing, the EnrichedListing's remote flag is
a boolean equal to `Boolean(job_is_remote)`: it is `true` exactly when
the raw `job_is_remote` field is the value `true`; an absent or `false`
flag yields `remote = false`, never an absent field in the output. -/
theorem enrichJob_remote_flag (lookup : String → Option CompanyInsight)
    (fmt : String → Int → String) (parseDate : String → Option Int)
    (localeDate : Int → String) (now : Int) (fallbackTitle uuid : String)
    (job : JSearchJob) :
    (enrichJob lookup fmt parseDate localeDate now fallbackTitle uuid job).1.remote
      = job.job_is_remote.getD false
  ∧ ((enrichJob lookup fmt parseDate localeDate now fallbackTitle uuid job).1.remote
        = true
      ↔ job.job_is_remote = some true) := by
  refine ⟨rfl, ?_⟩
  rw [show (enrichJob lookup fmt parseDate localeDate now fallbackTitle uuid job).1.remote
    = job.job_is_remote.getD false from rfl]
  cases job.job_is_remote with
  | none => simp
  | some b => cases b <;> simp
